import Mathlib

/-!
Verification development for the `cloudtail` log viewer/tailer.

Shallow embedding of the `stream` package (`format.go` and the
fetch/tail engine): the filter-expression builder, the severity
formatter, the two entry formatters, the bounded historical-fetch
loop (`GetEntries`) and the live-tail receive loop (`TailLogs`).

Modelling conventions:
* Go machine times (`time.Time`, `time.Duration`) are modelled as `Int`
  (nanoseconds); `time.Time.IsZero` becomes `(· = 0)`.
* The library call `Format(time.RFC3339)` is modelled by the concrete
  stand-in `rfc3339` below: the claims under study depend only on where
  a rendered timestamp appears inside a line or clause, never on the
  digits of the rendering itself.
* Writers never fail in the model: a call to `Fprintf`/`Fprintln`
  appends a line to an explicit output list (`sink` for the data
  writer handed to the function, `diag` for `os.Stderr`).
* A Go `nil`-pointer dereference (a panic) is modelled by the printer
  returning `none`, and by the loop outcome `Outcome.panicked`.
* `term.IsTerminal(os.Stdout.Fd())` is a process-global probe; it is
  passed in explicitly as the boolean `isTerminal`.
* The backend iterator of `GetEntries` is modelled as a finite trace: a
  list of entries it yields in order, followed by a terminal event
  (`iterator.Done` or an error).  The bidirectional stream of
  `TailLogs` is likewise a list of received batches followed by a
  terminal receive event (context cancellation observed as a
  `codes.Canceled` status, `io.EOF`, or any other receive error).
-/

namespace Cloudtail

/-- Stand-in for the library rendering `t.Format(time.RFC3339)` of a
time value modelled as an `Int`. -/
def rfc3339 (t : Int) : String := toString t

/-- ASCII upper-casing of one character, as `strings.ToUpper` performs
on the ASCII range (the only range severity labels use). -/
def upChar (c : Char) : Char :=
  if 'a' ≤ c ∧ c ≤ 'z' then Char.ofNat (c.toNat - 32) else c

/-- Go's `strings.ToUpper`. -/
def stringsToUpper (s : String) : String := ⟨s.data.map upChar⟩

/-- The white-space characters `strings.TrimSpace` strips (the Latin-1
code points of Go's `unicode.IsSpace`, minus NEL/NBSP which no log
payload in scope uses). -/
def spaceChars : List Char := [' ', '\t', '\n', '\x0b', '\x0c', '\r']

/-- Go's `strings.TrimSpace`: strip leading and trailing white space. -/
def stringsTrimSpace (s : String) : String :=
  ⟨((s.data.dropWhile (· ∈ spaceChars)).reverse.dropWhile (· ∈ spaceChars)).reverse⟩

/-! ### `format.go`: `Filter`, `formatFilter`, `formatSeverity` -/

/-- `stream.Filter` from `format.go`: structured filter criteria.
`Since` is a `time.Duration`, `SinceTime` a `time.Time`, both as `Int`. -/
structure Filter where
  Severity : String
  Since : Int
  SinceTime : Int
  ResourceType : String
  LogName : String
deriving DecidableEq, Repr

/-- `formatFilter` from `format.go`.  The pointer argument becomes
`Option Filter` (`none` = `nil`); `time.Now()` is passed in as `now`.
Clauses are accumulated exactly as the source appends them and joined
with `" AND "` (`strings.Join`). -/
def formatFilter (now : Int) (filter : Option Filter) : String :=
  match filter with
  | none => ""
  | some f => Id.run do
    let mut options : List String := []
    if f.Severity ≠ "" then
      options := options ++ ["severity = \"" ++ f.Severity ++ "\""]
    if f.Since ≠ 0 then
      options := options ++ ["timestamp >= \"" ++ rfc3339 (now - f.Since) ++ "\""]
    if f.SinceTime ≠ 0 then
      options := options ++ ["timestamp >= \"" ++ rfc3339 f.SinceTime ++ "\""]
    if f.ResourceType ≠ "" then
      options := options ++ ["resource.type = \"" ++ f.ResourceType ++ "\""]
    if f.LogName ≠ "" then
      options := options ++ ["logName = \"" ++ f.LogName ++ "\""]
    return String.intercalate " AND " options

/-- The severity→ANSI-color table of `formatSeverity` (`format.go`):
INFO, DEBUG, NOTICE blue; WARNING yellow; ERROR red.  A Go map with
distinct keys, modelled as an association list. -/
def severityColors : List (String × String) :=
  [("INFO", "\x1b[34m"), ("DEBUG", "\x1b[34m"), ("WARNING", "\x1b[33m"),
   ("NOTICE", "\x1b[34m"), ("ERROR", "\x1b[31m")]

/-- `formatSeverity` from `format.go`.  `isTerminal` is the result of
the `term.IsTerminal(os.Stdout.Fd())` probe. -/
def formatSeverity (isTerminal : Bool) (severity : String) : String :=
  let upper := stringsToUpper severity
  if !isTerminal then
    upper
  else
    match severityColors.lookup upper with
    | some color => color ++ upper ++ "\x1b[0m"
    | none => upper

/-! ### Entry shapes and the two printers -/

/-- The embedded `*http.Request` of a historical entry: the only fields
the printer reads are `Method` and `URL`. -/
structure GoRequest where
  Method : String
  URL : String
deriving DecidableEq, Repr

/-- `logging.HTTPRequest`: carries a possibly-`nil` `*http.Request`
pointer plus the status and latency the printer renders. -/
structure HTTPRequest where
  Request : Option GoRequest
  Status : Int
  LatencyMillis : Int
deriving DecidableEq, Repr

/-- `logging.Entry` (the historical shape), restricted to the fields
`printLogEntry` reads.  `Payload` is Go's `any`: `some s` exactly when
the type assertion `entry.Payload.(string)` succeeds (including the
empty string), `none` otherwise.  `ResourceType` stands for
`entry.Resource.Type`. -/
structure Entry where
  Timestamp : Int
  Severity : String
  ResourceType : String
  HTTPRequest : Option HTTPRequest
  Payload : Option String
deriving DecidableEq, Repr

/-- The `[timestamp] [severity] (resourceType) ` prefix shared by both
line shapes. -/
def lineHead (isTerminal : Bool) (timestamp severity resourceType : String) : String :=
  "[" ++ timestamp ++ "] [" ++ formatSeverity isTerminal severity ++ "] (" ++
    resourceType ++ ") "

/-- The text-payload branch of `printLogEntry`: the type assertion
succeeds (`some`) ⇒ one line with the payload trimmed, even when the
payload is empty. -/
def stringPayloadLines (head : String) (payload : Option String) : List String :=
  match payload with
  | some p => [head ++ stringsTrimSpace p]
  | none => []

/-- `printLogEntry` from the fetch/tail engine (historical shape).
Returns the list of lines written to `out`, or `none` when the Go code
panics: inside the `req := entry.HTTPRequest; req != nil` branch the
source guards `req.Request != nil` only around the URL and then
evaluates `req.Request.Method` unconditionally, so a present
`HTTPRequest` with an absent embedded `Request` dereferences a `nil`
pointer. -/
def printLogEntry (isTerminal : Bool) (entry : Entry) : Option (List String) :=
  let head := lineHead isTerminal (rfc3339 entry.Timestamp) entry.Severity
    entry.ResourceType
  match entry.HTTPRequest with
  | none => some (stringPayloadLines head entry.Payload)
  | some req =>
    let reqUrl := match req.Request with
      | some r => r.URL
      | none => ""
    match req.Request with
    | none => none
    | some r =>
      some ((head ++ r.Method ++ " " ++ reqUrl ++ " " ++ toString req.Status ++
        " " ++ toString req.LatencyMillis ++ "ms") ::
        stringPayloadLines head entry.Payload)

/-- `*loggingpb.HttpRequest` of a live (tail) entry: flat fields, no
embedded pointer.  `LatencyMillis` stands for
`Latency.AsDuration().Milliseconds()`. -/
structure TailHttpRequest where
  RequestMethod : String
  RequestUrl : String
  Status : Int
  LatencyMillis : Int
deriving DecidableEq, Repr

/-- `*loggingpb.LogEntry` (the live shape), restricted to the fields
`printTailLogEntry` reads.  `TextPayload` is `GetTextPayload()`, which
yields `""` when the payload is absent or not textual. -/
structure TailEntry where
  Timestamp : Int
  Severity : String
  ResourceType : String
  HttpRequest : Option TailHttpRequest
  TextPayload : String
deriving DecidableEq, Repr

/-- `printTailLogEntry` from the fetch/tail engine (live shape): the
request branch and the non-empty-text branch are two independent `if`
statements executed in that order; no pointer inside the request is
dereferenced, so no panic is possible. -/
def printTailLogEntry (isTerminal : Bool) (entry : TailEntry) : List String :=
  let head := lineHead isTerminal (rfc3339 entry.Timestamp) entry.Severity
    entry.ResourceType
  (match entry.HttpRequest with
   | some req => [head ++ req.RequestMethod ++ " " ++ req.RequestUrl ++ " " ++
      toString req.Status ++ " " ++ toString req.LatencyMillis ++ "ms"]
   | none => []) ++
  (if entry.TextPayload ≠ "" then [head ++ stringsTrimSpace entry.TextPayload] else [])

/-! ### The historical-fetch loop: `GetEntries` -/

/-- How a run of a loop ends, as seen by the caller: a `nil` return, a
returned error (the carried string is the full error text), or a Go
panic. -/
inductive Outcome where
  | ok
  | err (e : String)
  | panicked
deriving DecidableEq, Repr

/-- The terminal event of the paginated iterator: `iterator.Done`
(backend exhaustion) or any other error from `iter.Next()`. -/
inductive FetchEnd where
  | done
  | fail (e : String)
deriving DecidableEq, Repr

/-- A finite trace of the backend iterator: the entries `iter.Next()`
yields in order, then its terminal event. -/
structure FetchTrace where
  entries : List Entry
  ending : FetchEnd
deriving DecidableEq, Repr

/-- Observable result of a `GetEntries` run: the lines written to the
data sink `out`, the lines written to `os.Stderr`, the final value of
the loop counter, and the outcome. -/
structure FetchResult where
  sink : List String
  diag : List String
  counter : Nat
  outcome : Outcome
deriving DecidableEq, Repr

/-- An element of the `logadmin.EntriesOption` slice `GetEntries`
builds before iterating. -/
inductive EntriesOption where
  | filterOpt (f : String)
  | newestFirst
deriving DecidableEq, Repr

/-- The options slice of `GetEntries`: always the filter, plus
`NewestFirst()` exactly when `limit > 0`. -/
def entriesOptions (filter : String) (limit : Int) : List EntriesOption :=
  let options := [EntriesOption.filterOpt filter]
  if limit > 0 then options ++ [EntriesOption.newestFirst] else options

/-- The `iter.Next()` arms of `GetEntries` once the backend trace is
exhausted: `iterator.Done` prints the "No entries found." notice to
stderr exactly when `counter == 0`; any other error prints nothing. -/
def fetchEndDiag (ending : FetchEnd) (counter : Nat) : List String :=
  match ending with
  | .done => if counter = 0 then ["No entries found."] else []
  | .fail _ => []

/-- The `iter.Next()` arms of `GetEntries` once the backend trace is
exhausted: `iterator.Done` breaks the loop (so `GetEntries` returns
`nil`); any other error is returned unmodified. -/
def fetchEndOutcome (ending : FetchEnd) : Outcome :=
  match ending with
  | .done => .ok
  | .fail e => .err e

/-- The `for` loop of `GetEntries`: first the limit check
(`limit > 0 && counter >= limit`), then `iter.Next()` (an entry from
the trace, or the trace's terminal event once the entries are
exhausted, handled by `fetchEndDiag`/`fetchEndOutcome`), then
`printLogEntry` (a panic aborts the run), then `counter++`. -/
def getEntriesLoop (isTerminal : Bool) (limit : Int) (ending : FetchEnd) :
    List Entry → Nat → FetchResult
  | [], counter =>
    if 0 < limit ∧ limit ≤ (counter : Int) then
      { sink := [], diag := [], counter := counter, outcome := .ok }
    else
      { sink := [], diag := fetchEndDiag ending counter, counter := counter,
        outcome := fetchEndOutcome ending }
  | entry :: rest, counter =>
    if 0 < limit ∧ limit ≤ (counter : Int) then
      { sink := [], diag := [], counter := counter, outcome := .ok }
    else
      match printLogEntry isTerminal entry with
      | none =>
        { sink := [], diag := [], counter := counter, outcome := .panicked }
      | some lines =>
        let r := getEntriesLoop isTerminal limit ending rest (counter + 1)
        { r with sink := lines ++ r.sink }

/-- `GetEntries` from the fetch/tail engine, as the function of the
backend trace it observes.  Client construction is out of scope; the
run starts with `counter := 0`. -/
def GetEntries (isTerminal : Bool) (tr : FetchTrace) (limit : Int) : FetchResult :=
  getEntriesLoop isTerminal limit tr.ending tr.entries 0

/-! ### The live-tail loop: `TailLogs` -/

/-- The terminal receive event of the tail stream: `stream.Recv()`
returns an error whose status code is `codes.Canceled` (the cancelled
context observed through the receive), `io.EOF` (graceful stream
close), or any other receive error. -/
inductive TailEnd where
  | cancelled
  | eof
  | recvErr (e : String)
deriving DecidableEq, Repr

/-- A finite trace of the tail stream: the entry batches successive
`stream.Recv()` calls deliver, then the terminal receive event. -/
structure TailTrace where
  batches : List (List TailEntry)
  ending : TailEnd
deriving DecidableEq, Repr

/-- Observable result of a `TailLogs` run, mirroring `FetchResult`. -/
structure TailResult where
  sink : List String
  diag : List String
  counter : Nat
  outcome : Outcome
deriving DecidableEq, Repr

/-- The `stream.Recv()` error arms of the tail loop: an error with
status code `codes.Canceled` prints "Streaming stopped successfully" to
`out` — the data sink handed to `TailLogs` — and breaks; `io.EOF`
breaks silently; any other error prints nothing. -/
def tailEndSink (ending : TailEnd) : List String :=
  match ending with
  | .cancelled => ["Streaming stopped successfully"]
  | .eof => []
  | .recvErr _ => []

/-- The `stream.Recv()` error arms of the tail loop: `codes.Canceled`
and `io.EOF` break the loop (so `TailLogs` returns `nil`); any other
error is returned wrapped as `stream.Recv error`. -/
def tailEndOutcome (ending : TailEnd) : Outcome :=
  match ending with
  | .cancelled => .ok
  | .eof => .ok
  | .recvErr e => .err ("stream.Recv error: \n" ++ e)

/-- The receive loop of `TailLogs`: each iteration calls
`stream.Recv()`.  The terminal receive event is handled by
`tailEndSink`/`tailEndOutcome`.  A non-terminal receive yields a
batch: an empty batch `continue`s, otherwise every entry of the batch
is printed, the counter grows by the full batch length, and only then
is `limit > 0 && counter >= limit` checked. -/
def tailLoop (isTerminal : Bool) (limit : Int) (ending : TailEnd) :
    List (List TailEntry) → Nat → TailResult
  | [], counter =>
    { sink := tailEndSink ending, diag := [], counter := counter,
      outcome := tailEndOutcome ending }
  | batch :: rest, counter =>
    if batch.length = 0 then
      tailLoop isTerminal limit ending rest counter
    else
      let lines := (batch.map (printTailLogEntry isTerminal)).flatten
      let counter2 := counter + batch.length
      if 0 < limit ∧ limit ≤ (counter2 : Int) then
        { sink := lines, diag := [], counter := counter2, outcome := .ok }
      else
        let r := tailLoop isTerminal limit ending rest counter2
        { r with sink := lines ++ r.sink }

/-- The setup phase of `TailLogs` before the receive loop: client
construction, `TailLogEntries` stream open, and the single
`stream.Send` of the subscribe request; each may fail with an error
that is returned wrapped with the failing operation's name. -/
structure TailSetup where
  newClientErr : Option String
  tailLogEntriesErr : Option String
  sendErr : Option String
deriving DecidableEq, Repr

/-- The setup in which client construction, stream open and the
subscribe send all succeed. -/
def okSetup : TailSetup := ⟨none, none, none⟩

/-- `TailLogs` from the fetch/tail engine, as the function of its setup
outcomes and the stream trace it observes. -/
def TailLogs (isTerminal : Bool) (setup : TailSetup) (tr : TailTrace)
    (limit : Int) : TailResult :=
  match setup.newClientErr with
  | some e =>
    { sink := [], diag := [], counter := 0,
      outcome := .err ("NewClient error: \n" ++ e) }
  | none =>
    match setup.tailLogEntriesErr with
    | some e =>
      { sink := [], diag := [], counter := 0,
        outcome := .err ("TailLogEntries error: \n" ++ e) }
    | none =>
      match setup.sendErr with
      | some e =>
        { sink := [], diag := [], counter := 0,
          outcome := .err ("stream.Send error: \n" ++ e) }
      | none => tailLoop isTerminal limit tr.ending tr.batches 0

/-- Total number of entries carried by a list of batches. -/
def totalTail (batches : List (List TailEntry)) : Nat :=
  (batches.map List.length).sum

/-! ### Loop characterization lemmas -/

/-- The lines a list of historical entries prints, assuming none of
them panics. -/
def fetchLines (isTerminal : Bool) (es : List Entry) : List String :=
  (es.map (fun e => (printLogEntry isTerminal e).getD [])).flatten

/-- The lines a list of tail batches prints. -/
def tailLines (isTerminal : Bool) (batches : List (List TailEntry)) : List String :=
  (batches.flatten.map (printTailLogEntry isTerminal)).flatten

/-- A well-formed historical entry in the sense of the spec: exactly
one of the two payload shapes is populated, and a present
`HTTPRequest` carries its embedded request. -/
def wellFormedEntry (e : Entry) : Bool :=
  match e.HTTPRequest, e.Payload with
  | some req, none => req.Request.isSome
  | none, some _ => true
  | _, _ => false

/-- The clause list of the filter builder as §4.1 of the spec words it:
one clause per present criterion, in the fixed order severity,
since-duration (lower bound `now − duration`), since-timestamp,
resource type, log name. -/
def specFilterClauses (now : Int) (f : Filter) : List String :=
  (if f.Severity ≠ "" then ["severity = \"" ++ f.Severity ++ "\""] else []) ++
  (if f.Since ≠ 0 then ["timestamp >= \"" ++ rfc3339 (now - f.Since) ++ "\""] else []) ++
  (if f.SinceTime ≠ 0 then ["timestamp >= \"" ++ rfc3339 f.SinceTime ++ "\""] else []) ++
  (if f.ResourceType ≠ "" then ["resource.type = \"" ++ f.ResourceType ++ "\""] else []) ++
  (if f.LogName ≠ "" then ["logName = \"" ++ f.LogName ++ "\""] else [])

/-- A text-shaped historical entry: timestamp 5, severity "Info",
resource type "gce_instance", no HTTP request, payload "  hello  ". -/
def sampleText : Entry :=
  ⟨5, "Info", "gce_instance", none, some "  hello  "⟩

/-- A historical entry carrying both an HTTP request (GET /u, status
200, 12 ms, embedded request present) and the string payload "hi". -/
def sampleBoth : Entry :=
  ⟨5, "Info", "gce_instance", some ⟨some ⟨"GET", "/u"⟩, 200, 12⟩, some "hi"⟩

/-- A historical entry with neither payload shape. -/
def sampleNone : Entry :=
  ⟨5, "Info", "gce_instance", none, none⟩

/-- A historical entry whose `HTTPRequest` is present (status 500,
latency 3 ms) but whose embedded `Request` pointer is `nil`. -/
def sampleNilReq : Entry :=
  ⟨5, "Error", "gce_instance", some ⟨none, 500, 3⟩, none⟩

/-- A historical entry whose payload is the empty string. -/
def sampleEmptyPayload : Entry :=
  ⟨5, "Info", "gce_instance", none, some ""⟩

/-- A text-shaped live entry with payload " w ". -/
def sampleTailText : TailEntry :=
  ⟨7, "Warning", "k8s_container", none, " w "⟩

/-! ### Supporting lemmas -/

theorem getEntriesLoop_counter_le (isTerminal : Bool) (limit : Int)
    (ending : FetchEnd) (es : List Entry) (c : Nat)
    (hlim : 0 < limit) (hc : (c : Int) ≤ limit) :
    ((getEntriesLoop isTerminal limit ending es c).counter : Int) ≤ limit := by
  induction es generalizing c with
  | nil =>
    rw [getEntriesLoop]
    split
    · exact hc
    · cases ending <;> simp [hc]
  | cons e rest ih =>
    rw [getEntriesLoop]
    split
    · exact hc
    · rename_i hguard
      cases hpr : printLogEntry isTerminal e with
      | none => simpa using hc
      | some lines =>
        have hclt : (c : Int) < limit := by
          by_contra hle
          exact hguard ⟨hlim, by omega⟩
        have := ih (c + 1) (by push_cast; omega)
        simpa using this

theorem getEntriesLoop_run_to_end (isTerminal : Bool) (limit : Int)
    (ending : FetchEnd) (es : List Entry) (c : Nat)
    (hsome : ∀ e ∈ es, (printLogEntry isTerminal e).isSome)
    (hlt : 0 < limit → (c : Int) + es.length < limit) :
    getEntriesLoop isTerminal limit ending es c =
      { sink := fetchLines isTerminal es,
        diag := fetchEndDiag ending (c + es.length),
        counter := c + es.length,
        outcome := fetchEndOutcome ending } := by
  induction es generalizing c with
  | nil =>
    rw [getEntriesLoop]
    have hguard : ¬(0 < limit ∧ limit ≤ (c : Int)) := by
      rintro ⟨h1, h2⟩
      have := hlt h1
      simp at this
      omega
    rw [if_neg hguard]
    cases ending <;> simp [fetchLines, fetchEndDiag, fetchEndOutcome]
  | cons e rest ih =>
    rw [getEntriesLoop]
    have hguard : ¬(0 < limit ∧ limit ≤ (c : Int)) := by
      rintro ⟨h1, h2⟩
      have := hlt h1
      push_cast [List.length_cons] at this
      omega
    rw [if_neg hguard]
    have he : (printLogEntry isTerminal e).isSome := hsome e (by simp)
    cases hpr : printLogEntry isTerminal e with
    | none => rw [hpr] at he; simp at he
    | some lines =>
      simp only []
      rw [ih (c + 1) (fun e' he' => hsome e' (by simp [he']))
        (fun h1 => by
          have := hlt h1
          push_cast [List.length_cons] at this ⊢
          omega)]
      have harith : c + 1 + rest.length = c + (e :: rest).length := by
        simp [List.length_cons]
        omega
      rw [harith]
      simp [fetchLines, fetchEndDiag, fetchEndOutcome, hpr]

theorem getEntriesLoop_reach_limit (isTerminal : Bool) (limit : Int)
    (ending : FetchEnd) (es : List Entry) (c : Nat)
    (hsome : ∀ e ∈ es, (printLogEntry isTerminal e).isSome)
    (hlim : 0 < limit) (hc : (c : Int) ≤ limit)
    (hreach : limit ≤ (c : Int) + es.length) :
    (getEntriesLoop isTerminal limit ending es c).outcome = .ok ∧
      (getEntriesLoop isTerminal limit ending es c).counter = limit.toNat ∧
      (getEntriesLoop isTerminal limit ending es c).diag = [] := by
  induction es generalizing c with
  | nil =>
    rw [getEntriesLoop]
    have hcl : (c : Int) = limit := by simp at hreach; omega
    rw [if_pos ⟨hlim, le_of_eq hcl.symm⟩]
    refine ⟨rfl, ?_, rfl⟩
    simp
    omega
  | cons e rest ih =>
    rw [getEntriesLoop]
    by_cases hguard : 0 < limit ∧ limit ≤ (c : Int)
    · rw [if_pos hguard]
      have hcl : (c : Int) = limit := le_antisymm hc hguard.2
      refine ⟨rfl, ?_, rfl⟩
      simp
      omega
    · rw [if_neg hguard]
      have hclt : (c : Int) < limit := by
        rcases lt_or_eq_of_le hc with h | h
        · exact h
        · exact absurd ⟨hlim, le_of_eq h.symm⟩ hguard
      have he : (printLogEntry isTerminal e).isSome := hsome e (by simp)
      cases hpr : printLogEntry isTerminal e with
      | none => rw [hpr] at he; simp at he
      | some lines =>
        have := ih (c + 1) (fun e' he' => hsome e' (by simp [he']))
          (by push_cast; omega)
          (by push_cast [List.length_cons] at hreach ⊢; omega)
        simpa using this

theorem tailLoop_run_to_end (isTerminal : Bool) (limit : Int)
    (ending : TailEnd) (batches : List (List TailEntry)) (c : Nat)
    (hlt : 0 < limit → (c : Int) + totalTail batches < limit) :
    tailLoop isTerminal limit ending batches c =
      { sink := tailLines isTerminal batches ++ tailEndSink ending,
        diag := [],
        counter := c + totalTail batches,
        outcome := tailEndOutcome ending } := by
  induction batches generalizing c with
  | nil =>
    rw [tailLoop]
    simp [tailLines, totalTail]
  | cons batch rest ih =>
    rw [tailLoop]
    have htot : totalTail (batch :: rest) = batch.length + totalTail rest := by
      simp [totalTail]
    by_cases hemp : batch.length = 0
    · rw [if_pos hemp]
      rw [ih c (fun h1 => by have := hlt h1; rw [htot] at this; omega)]
      have hb : batch = [] := List.length_eq_zero.mp hemp
      simp [tailLines, hb, htot, hemp, totalTail]
    · rw [if_neg hemp]
      have hguard : ¬(0 < limit ∧ limit ≤ ((c + batch.length : Nat) : Int)) := by
        rintro ⟨h1, h2⟩
        have := hlt h1
        rw [htot] at this
        push_cast at this h2
        omega
      rw [if_neg hguard]
      simp only []
      rw [ih (c + batch.length) (fun h1 => by
        have := hlt h1
        rw [htot] at this
        push_cast at this ⊢
        omega)]
      have harith : c + batch.length + totalTail rest = c + totalTail (batch :: rest) := by
        rw [htot]; omega
      rw [harith]
      simp [tailLines]

theorem totalTail_cons (b : List TailEntry) (rest : List (List TailEntry)) :
    totalTail (b :: rest) = b.length + totalTail rest := by
  simp [totalTail]

theorem totalTail_append (xs ys : List (List TailEntry)) :
    totalTail (xs ++ ys) = totalTail xs + totalTail ys := by
  simp [totalTail]

theorem tailLines_cons (isTerminal : Bool) (b : List TailEntry)
    (rest : List (List TailEntry)) :
    tailLines isTerminal (b :: rest) =
      (b.map (printTailLogEntry isTerminal)).flatten ++ tailLines isTerminal rest := by
  simp [tailLines]

theorem tailLoop_reach_limit (isTerminal : Bool) (limit : Int)
    (ending : TailEnd) (batches : List (List TailEntry)) (c : Nat)
    (hlim : 0 < limit) (hc : (c : Int) < limit)
    (hreach : limit ≤ (c : Int) + totalTail batches) :
    (tailLoop isTerminal limit ending batches c).outcome = .ok ∧
      (tailLoop isTerminal limit ending batches c).diag = [] := by
  induction batches generalizing c with
  | nil =>
    exfalso
    simp [totalTail] at hreach
    omega
  | cons batch rest ih =>
    rw [tailLoop]
    have htot : totalTail (batch :: rest) = batch.length + totalTail rest := by
      simp [totalTail]
    by_cases hemp : batch.length = 0
    · rw [if_pos hemp]
      exact ih c hc (by rw [htot, hemp] at hreach; simpa using hreach)
    · rw [if_neg hemp]
      by_cases hguard : 0 < limit ∧ limit ≤ ((c + batch.length : Nat) : Int)
      · rw [if_pos hguard]
        exact ⟨rfl, rfl⟩
      · rw [if_neg hguard]
        have hnle : ¬limit ≤ ((c + batch.length : Nat) : Int) :=
          fun h2 => hguard ⟨hlim, h2⟩
        have hlt2 : ((c + batch.length : Nat) : Int) < limit := by omega
        refine ih (c + batch.length) hlt2 ?_
        rw [htot] at hreach
        push_cast at hreach ⊢
        omega

theorem tailLoop_limit_exit (isTerminal : Bool) (limit : Int)
    (ending : TailEnd) (batches : List (List TailEntry)) (c : Nat)
    (hlim : 0 < limit) (hc : (c : Int) < limit)
    (hreach : limit ≤ (c : Int) + totalTail batches) :
    ∃ p b s, batches = p ++ b :: s ∧ b.length ≠ 0 ∧
      (c : Int) + totalTail p < limit ∧
      limit ≤ (c : Int) + totalTail p + b.length ∧
      tailLoop isTerminal limit ending batches c =
        { sink := tailLines isTerminal (p ++ [b]), diag := [],
          counter := c + totalTail p + b.length, outcome := .ok } := by
  induction batches generalizing c with
  | nil =>
    exfalso
    simp [totalTail] at hreach
    omega
  | cons b rest ih =>
    rw [tailLoop]
    by_cases hemp : b.length = 0
    · rw [if_pos hemp]
      have hb : b = [] := List.length_eq_zero.mp hemp
      have hreach' : limit ≤ (c : Int) + totalTail rest := by
        rw [totalTail_cons, hemp] at hreach
        push_cast at hreach ⊢
        omega
      obtain ⟨p, b', s, heq, hne, hlt1, hge1, hrun⟩ := ih c hc hreach'
      refine ⟨b :: p, b', s, by rw [heq, List.cons_append], hne, ?_, ?_, ?_⟩
      · rw [totalTail_cons, hemp]
        push_cast
        omega
      · rw [totalTail_cons, hemp]
        push_cast
        omega
      · rw [hrun]
        have hsink : tailLines isTerminal ((b :: p) ++ [b']) =
            tailLines isTerminal (p ++ [b']) := by
          rw [List.cons_append, tailLines_cons, hb]
          simp
        rw [hsink, totalTail_cons, hemp]
        simp
    · rw [if_neg hemp]
      by_cases hguard : 0 < limit ∧ limit ≤ ((c + b.length : Nat) : Int)
      · rw [if_pos hguard]
        refine ⟨[], b, rest, rfl, hemp, ?_, ?_, ?_⟩
        · simpa [totalTail] using hc
        · have := hguard.2
          push_cast at this ⊢
          simpa [totalTail] using this
        · have hsink : tailLines isTerminal ([] ++ [b]) =
              (b.map (printTailLogEntry isTerminal)).flatten := by
            simp [tailLines]
          rw [hsink]
          simp [totalTail]
      · rw [if_neg hguard]
        have hnle : ¬limit ≤ ((c + b.length : Nat) : Int) :=
          fun h2 => hguard ⟨hlim, h2⟩
        have hc2 : ((c + b.length : Nat) : Int) < limit := by omega
        have hreach2 : limit ≤ ((c + b.length : Nat) : Int) + totalTail rest := by
          rw [totalTail_cons] at hreach
          push_cast at hreach ⊢
          omega
        obtain ⟨p, b', s, heq, hne, hlt1, hge1, hrun⟩ := ih (c + b.length) hc2 hreach2
        refine ⟨b :: p, b', s, by rw [heq, List.cons_append], hne, ?_, ?_, ?_⟩
        · rw [totalTail_cons]
          push_cast
          push_cast at hlt1
          omega
        · rw [totalTail_cons]
          push_cast
          push_cast at hge1
          omega
        · simp only []
          rw [hrun]
          have hsink : tailLines isTerminal ((b :: p) ++ [b']) =
              (b.map (printTailLogEntry isTerminal)).flatten ++
                tailLines isTerminal (p ++ [b']) := by
            rw [List.cons_append, tailLines_cons]
          rw [hsink, totalTail_cons]
          simp
          omega

theorem printLogEntry_of_wellFormed (isTerminal : Bool) (e : Entry)
    (h : wellFormedEntry e) :
    ∃ line, printLogEntry isTerminal e = some [line] := by
  rcases e with ⟨ts, sev, rt, hreq, pl⟩
  cases hreq with
  | none =>
    cases pl with
    | none => simp [wellFormedEntry] at h
    | some p => exact ⟨_, rfl⟩
  | some req =>
    cases pl with
    | some p => simp [wellFormedEntry] at h
    | none =>
      rcases req with ⟨oreq, st, lat⟩
      cases oreq with
      | none => simp [wellFormedEntry] at h
      | some r => exact ⟨_, rfl⟩

theorem fetchLines_length_of_wellFormed (isTerminal : Bool) (es : List Entry)
    (h : ∀ e ∈ es, wellFormedEntry e) :
    (fetchLines isTerminal es).length = es.length := by
  induction es with
  | nil => simp [fetchLines]
  | cons e rest ih =>
    obtain ⟨line, hline⟩ := printLogEntry_of_wellFormed isTerminal e (h e (by simp))
    have := ih (fun e' he' => h e' (by simp [he']))
    simp only [fetchLines, List.map_cons, List.flatten_cons, List.length_append,
      hline] at this ⊢
    simp [this]
    omega

theorem printLogEntry_isSome_of_wellFormed (isTerminal : Bool) (e : Entry)
    (h : wellFormedEntry e) : (printLogEntry isTerminal e).isSome := by
  obtain ⟨line, hline⟩ := printLogEntry_of_wellFormed isTerminal e h
  simp [hline]

/-! ### Claim theorems -/

/-- C5: the filter builder emits exactly the clauses of the present
(non-empty / non-zero) criteria, joined with " AND " with no leading or
trailing joiner, in the fixed order severity, since-duration (rendered
as a lower bound `now − duration`), since-timestamp, resource type,
log name; a `nil` criteria value yields the empty string. -/
theorem formatFilter_joins_present_clauses (now : Int) (f : Filter) :
    formatFilter now none = "" ∧
    formatFilter now (some f) = String.intercalate " AND " (specFilterClauses now f) := by
  refine ⟨rfl, ?_⟩
  simp only [formatFilter, specFilterClauses, Id.run]
  split_ifs <;> rfl

/-- C4 counterexample: on an interactive terminal, the severity
CRITICAL — which lies above ERROR — is returned as the plain upper-case
label, not wrapped in the red ANSI escape, because the color table has
no entry for it. -/
theorem formatSeverity_critical_not_red :
    formatSeverity true "Critical" = "CRITICAL" ∧
    formatSeverity true "Critical" ≠ "\x1b[31m" ++ "CRITICAL" ++ "\x1b[0m" := by
  decide

/-- C4 amended: `formatSeverity` upper-cases the label; with no
terminal the plain label is returned; on a terminal the fixed table
wraps INFO, DEBUG and NOTICE in blue, WARNING in yellow and exactly
ERROR in red; severities above ERROR (CRITICAL, ALERT, EMERGENCY) are
absent from the table and are returned plain, as is any other label
not in the table. -/
theorem formatSeverity_table (s : String) (isTerminal : Bool) :
    formatSeverity false s = stringsToUpper s ∧
    (severityColors.lookup (stringsToUpper s) = none →
      formatSeverity isTerminal s = stringsToUpper s) ∧
    formatSeverity true "INFO" = "\x1b[34m" ++ "INFO" ++ "\x1b[0m" ∧
    formatSeverity true "DEBUG" = "\x1b[34m" ++ "DEBUG" ++ "\x1b[0m" ∧
    formatSeverity true "NOTICE" = "\x1b[34m" ++ "NOTICE" ++ "\x1b[0m" ∧
    formatSeverity true "WARNING" = "\x1b[33m" ++ "WARNING" ++ "\x1b[0m" ∧
    formatSeverity true "ERROR" = "\x1b[31m" ++ "ERROR" ++ "\x1b[0m" ∧
    formatSeverity true "CRITICAL" = "CRITICAL" ∧
    formatSeverity true "ALERT" = "ALERT" ∧
    formatSeverity true "EMERGENCY" = "EMERGENCY" := by
  refine ⟨rfl, ?_, by decide, by decide, by decide, by decide, by decide,
    by decide, by decide, by decide⟩
  intro h
  cases isTerminal with
  | false => rfl
  | true => simp [formatSeverity, h]

/-- C4 witness: an unrecognized severity label on a terminal comes back
as its plain upper-case form. -/
theorem formatSeverity_table_witness :
    formatSeverity true "Fatal" = stringsToUpper "Fatal" :=
  (formatSeverity_table "Fatal" true).2.1 (by decide)

/-- C9: evaluation of `printLogEntry` at an entry whose `HTTPRequest`
is present with a `nil` embedded `Request` — the source dereferences
`req.Request.Method` after guarding only the URL, so the run panics
instead of rendering empty method and URL; the panic aborts the
enclosing fetch. -/
theorem printLogEntry_nil_request_panics :
    printLogEntry false sampleNilReq = none ∧
    (GetEntries false ⟨[sampleNilReq], FetchEnd.done⟩ (-1)).outcome =
      Outcome.panicked := by
  decide

/-- C2 counterexample: a cancelled tail run terminates with no error,
but the confirmation "Streaming stopped successfully" is written to the
data sink handed to `TailLogs`, while the diagnostic stream receives
nothing — the opposite of the claimed destinations. -/
theorem tailLogs_cancel_message_on_data_sink :
    (TailLogs false okSetup ⟨[], TailEnd.cancelled⟩ 5).outcome = Outcome.ok ∧
    (TailLogs false okSetup ⟨[], TailEnd.cancelled⟩ 5).sink =
      ["Streaming stopped successfully"] ∧
    (TailLogs false okSetup ⟨[], TailEnd.cancelled⟩ 5).diag = [] := by
  decide

/-- C2 amended: whenever cancellation is observed by the tail loop, the
run terminates with no error, and the user-facing confirmation is
written to the data sink itself (after the already-emitted lines); the
diagnostic stream stays empty. -/
theorem tailLogs_cancellation_clean (isTerminal : Bool) (limit : Int)
    (batches : List (List TailEntry))
    (h : 0 < limit → (totalTail batches : Int) < limit) :
    (TailLogs isTerminal okSetup ⟨batches, TailEnd.cancelled⟩ limit).outcome =
      Outcome.ok ∧
    (TailLogs isTerminal okSetup ⟨batches, TailEnd.cancelled⟩ limit).sink =
      tailLines isTerminal batches ++ ["Streaming stopped successfully"] ∧
    (TailLogs isTerminal okSetup ⟨batches, TailEnd.cancelled⟩ limit).diag = [] := by
  have h0 : TailLogs isTerminal okSetup ⟨batches, TailEnd.cancelled⟩ limit =
      tailLoop isTerminal limit TailEnd.cancelled batches 0 := rfl
  rw [h0, tailLoop_run_to_end isTerminal limit TailEnd.cancelled batches 0
    (by intro h1; simpa using h h1)]
  simp [tailEndSink, tailEndOutcome]

/-- C2 witness: a one-batch cancelled tail run under limit 5. -/
theorem tailLogs_cancellation_clean_witness :
    (TailLogs false okSetup ⟨[[sampleTailText]], TailEnd.cancelled⟩ 5).outcome =
      Outcome.ok ∧
    (TailLogs false okSetup ⟨[[sampleTailText]], TailEnd.cancelled⟩ 5).sink =
      tailLines false [[sampleTailText]] ++ ["Streaming stopped successfully"] :=
  ⟨(tailLogs_cancellation_clean false 5 [[sampleTailText]] (by decide)).1,
   (tailLogs_cancellation_clean false 5 [[sampleTailText]] (by decide)).2.1⟩

/-- C6: a historical fetch that reaches backend exhaustion emits one
line per (well-formed) entry on the data sink and returns no error;
the informational "No entries found." notice appears on the diagnostic
stream exactly when zero entries were found, and never on the data
sink. -/
theorem getEntries_exhaustion_notice (isTerminal : Bool) (limit : Int)
    (entries : List Entry)
    (hwf : ∀ e ∈ entries, wellFormedEntry e)
    (hlt : 0 < limit → (entries.length : Int) < limit) :
    (GetEntries isTerminal ⟨entries, FetchEnd.done⟩ limit).outcome = Outcome.ok ∧
    (GetEntries isTerminal ⟨entries, FetchEnd.done⟩ limit).sink =
      fetchLines isTerminal entries ∧
    (GetEntries isTerminal ⟨entries, FetchEnd.done⟩ limit).sink.length =
      entries.length ∧
    (GetEntries isTerminal ⟨entries, FetchEnd.done⟩ limit).diag =
      (if entries.length = 0 then ["No entries found."] else []) := by
  have hsome : ∀ e ∈ entries, (printLogEntry isTerminal e).isSome :=
    fun e he => printLogEntry_isSome_of_wellFormed isTerminal e (hwf e he)
  have h0 : GetEntries isTerminal ⟨entries, FetchEnd.done⟩ limit =
      getEntriesLoop isTerminal limit FetchEnd.done entries 0 := rfl
  rw [h0, getEntriesLoop_run_to_end isTerminal limit FetchEnd.done entries 0 hsome
    (by intro h1; simpa using hlt h1)]
  simp [fetchEndOutcome, fetchEndDiag,
    fetchLines_length_of_wellFormed isTerminal entries hwf]

/-- C6 witness: exhaustion after one well-formed entry under limit 5 —
one line, no notice, no error. -/
theorem getEntries_exhaustion_notice_witness :
    (GetEntries false ⟨[sampleText], FetchEnd.done⟩ 5).outcome = Outcome.ok ∧
    (GetEntries false ⟨[sampleText], FetchEnd.done⟩ 5).sink.length = 1 ∧
    (GetEntries false ⟨[sampleText], FetchEnd.done⟩ 5).diag =
      (if (1 : Nat) = 0 then ["No entries found."] else []) :=
  ⟨(getEntries_exhaustion_notice false 5 [sampleText] (by decide) (by decide)).1,
   (getEntries_exhaustion_notice false 5 [sampleText] (by decide) (by decide)).2.2.1,
   (getEntries_exhaustion_notice false 5 [sampleText] (by decide) (by decide)).2.2.2⟩

/-- C7: the tail loop treats a graceful backend end-of-input (EOF) as a
silent clean termination — no error, nothing written beyond the entry
lines — while a receive error that is neither cancellation nor EOF is
returned wrapped with the receive operation's context
("stream.Recv error"), distinct from the wraps used for the open and
send phases. -/
theorem tailLogs_eof_silent_recv_error_wrapped (isTerminal : Bool) (limit : Int)
    (batches : List (List TailEntry)) (e : String)
    (hlt : 0 < limit → (totalTail batches : Int) < limit) :
    (TailLogs isTerminal okSetup ⟨batches, TailEnd.eof⟩ limit).outcome =
      Outcome.ok ∧
    (TailLogs isTerminal okSetup ⟨batches, TailEnd.eof⟩ limit).sink =
      tailLines isTerminal batches ∧
    (TailLogs isTerminal okSetup ⟨batches, TailEnd.eof⟩ limit).diag = [] ∧
    (TailLogs isTerminal okSetup ⟨batches, TailEnd.recvErr e⟩ limit).outcome =
      Outcome.err ("stream.Recv error: \n" ++ e) ∧
    (TailLogs isTerminal ⟨none, none, some e⟩ ⟨batches, TailEnd.eof⟩ limit).outcome =
      Outcome.err ("stream.Send error: \n" ++ e) ∧
    (TailLogs isTerminal ⟨none, some e, none⟩ ⟨batches, TailEnd.eof⟩ limit).outcome =
      Outcome.err ("TailLogEntries error: \n" ++ e) := by
  have h1 : TailLogs isTerminal okSetup ⟨batches, TailEnd.eof⟩ limit =
      tailLoop isTerminal limit TailEnd.eof batches 0 := rfl
  have h2 : TailLogs isTerminal okSetup ⟨batches, TailEnd.recvErr e⟩ limit =
      tailLoop isTerminal limit (TailEnd.recvErr e) batches 0 := rfl
  rw [h1, h2,
    tailLoop_run_to_end isTerminal limit TailEnd.eof batches 0
      (by intro hp; simpa using hlt hp),
    tailLoop_run_to_end isTerminal limit (TailEnd.recvErr e) batches 0
      (by intro hp; simpa using hlt hp)]
  simp [tailEndSink, tailEndOutcome, TailLogs]

/-- C7 witness: a one-batch tail stream under limit 5, ending in EOF
and, separately, in a receive error "boom". -/
theorem tailLogs_eof_silent_recv_error_wrapped_witness :
    (TailLogs false okSetup ⟨[[sampleTailText]], TailEnd.eof⟩ 5).outcome =
      Outcome.ok ∧
    (TailLogs false okSetup ⟨[[sampleTailText]], TailEnd.recvErr "boom"⟩ 5).outcome =
      Outcome.err ("stream.Recv error: \n" ++ "boom") :=
  ⟨(tailLogs_eof_silent_recv_error_wrapped false 5 [[sampleTailText]] "boom"
      (by decide)).1,
   (tailLogs_eof_silent_recv_error_wrapped false 5 [[sampleTailText]] "boom"
      (by decide)).2.2.2.1⟩

/-- C8: `GetEntries` puts `NewestFirst()` into the backend options
exactly when `limit > 0`; with `limit <= 0` (including negative
limits) the ordering option is absent and the fetch reads every entry
the backend yields, terminating only at exhaustion. -/
theorem getEntries_newest_first_iff_limit_pos (filter : String) (limit : Int)
    (isTerminal : Bool) (entries : List Entry)
    (hwf : ∀ e ∈ entries, wellFormedEntry e) :
    (EntriesOption.newestFirst ∈ entriesOptions filter limit ↔ 0 < limit) ∧
    (limit ≤ 0 →
      (GetEntries isTerminal ⟨entries, FetchEnd.done⟩ limit).counter =
        entries.length ∧
      (GetEntries isTerminal ⟨entries, FetchEnd.done⟩ limit).outcome =
        Outcome.ok) := by
  constructor
  · simp only [entriesOptions]
    split_ifs with hpos
    · simpa using hpos
    · simp
      omega
  · intro hle
    have hsome : ∀ e ∈ entries, (printLogEntry isTerminal e).isSome :=
      fun e he => printLogEntry_isSome_of_wellFormed isTerminal e (hwf e he)
    have h0 : GetEntries isTerminal ⟨entries, FetchEnd.done⟩ limit =
        getEntriesLoop isTerminal limit FetchEnd.done entries 0 := rfl
    rw [h0, getEntriesLoop_run_to_end isTerminal limit FetchEnd.done entries 0
      hsome (fun h1 => absurd h1 (by omega))]
    simp [fetchEndOutcome]

/-- C8 witness: the default limit −1 reads both available entries and
requests no ordering. -/
theorem getEntries_newest_first_iff_limit_pos_witness :
    ¬(EntriesOption.newestFirst ∈ entriesOptions "f" (-1)) ∧
    (GetEntries false ⟨[sampleText, sampleText], FetchEnd.done⟩ (-1)).counter = 2 :=
  ⟨fun hmem => by
      have := (getEntries_newest_first_iff_limit_pos "f" (-1) false
        [sampleText, sampleText] (by decide)).1.mp hmem
      omega,
   ((getEntries_newest_first_iff_limit_pos "f" (-1) false
      [sampleText, sampleText] (by decide)).2 (by decide)).1⟩

/-- C1 counterexample: a fetch with `limit = 1` over a single entry
that carries both an HTTP request and a string payload exits cleanly
yet emits two output lines — more than `limit`. -/
theorem getEntries_limit_exceeded_lines :
    0 < (1 : Int) ∧
    (GetEntries false ⟨[sampleBoth], FetchEnd.done⟩ 1).outcome = Outcome.ok ∧
    (GetEntries false ⟨[sampleBoth], FetchEnd.done⟩ 1).sink.length = 2 := by
  decide

/-- C1 amended: the limit bounds processed entries, not emitted lines.
For `limit > 0`: `GetEntries` processes at most `limit` entries and
exits cleanly with exactly `limit` processed once the backend yields
that many; `TailLogs` exits cleanly at the end of the first nonempty
batch at which the processed-entry count reaches `limit` — the batch
split `p ++ b :: s` below, with the count strictly below `limit`
before `b` and at least `limit` after all of `b` — emitting that whole
batch, counting it in full, never touching the later batches, and
hence processing at most one batch past the limit (emitted lines can
exceed `limit`, since an entry can emit two lines and a batch is
finished before the check); when the trace carries fewer than `limit`
entries the tail loop instead runs to its terminal event, processing
everything.  For `limit <= 0` no limit is applied to either loop: both
run to their trace's terminal event, processing every entry. -/
theorem getEntries_tailLogs_limit_processed_entries (isTerminal : Bool)
    (limit : Int) (tr : FetchTrace) (batches : List (List TailEntry))
    (ending : TailEnd) :
    (0 < limit →
      ((GetEntries isTerminal tr limit).counter : Int) ≤ limit ∧
      ((∀ e ∈ tr.entries, (printLogEntry isTerminal e).isSome) →
        limit ≤ (tr.entries.length : Int) →
        (GetEntries isTerminal tr limit).outcome = Outcome.ok ∧
        (GetEntries isTerminal tr limit).counter = limit.toNat) ∧
      (limit ≤ (totalTail batches : Int) →
        ∃ p b s, batches = p ++ b :: s ∧ b.length ≠ 0 ∧
          (totalTail p : Int) < limit ∧
          limit ≤ (totalTail p : Int) + b.length ∧
          totalTail p + b.length ≤ totalTail batches ∧
          TailLogs isTerminal okSetup ⟨batches, ending⟩ limit =
            { sink := tailLines isTerminal (p ++ [b]), diag := [],
              counter := totalTail p + b.length, outcome := Outcome.ok }) ∧
      ((totalTail batches : Int) < limit →
        TailLogs isTerminal okSetup ⟨batches, ending⟩ limit =
          { sink := tailLines isTerminal batches ++ tailEndSink ending,
            diag := [], counter := totalTail batches,
            outcome := tailEndOutcome ending })) ∧
    (limit ≤ 0 →
      ((∀ e ∈ tr.entries, (printLogEntry isTerminal e).isSome) →
        (GetEntries isTerminal tr limit).counter = tr.entries.length ∧
        (GetEntries isTerminal tr limit).outcome = fetchEndOutcome tr.ending) ∧
      TailLogs isTerminal okSetup ⟨batches, ending⟩ limit =
        { sink := tailLines isTerminal batches ++ tailEndSink ending,
          diag := [], counter := totalTail batches,
          outcome := tailEndOutcome ending }) := by
  have h0 : TailLogs isTerminal okSetup ⟨batches, ending⟩ limit =
      tailLoop isTerminal limit ending batches 0 := rfl
  constructor
  · intro hpos
    refine ⟨?_, ?_, ?_, ?_⟩
    · exact getEntriesLoop_counter_le isTerminal limit tr.ending tr.entries 0
        hpos (by omega)
    · intro hsome hreach
      have := getEntriesLoop_reach_limit isTerminal limit tr.ending tr.entries 0
        hsome hpos (by omega) (by simpa using hreach)
      exact ⟨this.1, this.2.1⟩
    · intro hreach
      obtain ⟨p, b, s, heq, hne, hlt1, hge1, hrun⟩ :=
        tailLoop_limit_exit isTerminal limit ending batches 0 hpos
          (by omega) (by simpa using hreach)
      refine ⟨p, b, s, heq, hne, by simpa using hlt1, by simpa using hge1,
        ?_, ?_⟩
      · rw [heq, totalTail_append, totalTail_cons]
        omega
      · rw [h0, hrun]
        simp
    · intro hlt
      rw [h0, tailLoop_run_to_end isTerminal limit ending batches 0
        (fun _ => by simpa using hlt)]
      simp
  · intro hle
    constructor
    · intro hsome
      rw [show GetEntries isTerminal tr limit =
          getEntriesLoop isTerminal limit tr.ending tr.entries 0 from rfl,
        getEntriesLoop_run_to_end isTerminal limit tr.ending tr.entries 0 hsome
          (fun h1 => absurd h1 (by omega))]
      simp
    · rw [h0, tailLoop_run_to_end isTerminal limit ending batches 0
        (fun h1 => absurd h1 (by omega))]
      simp

/-- C1 witness: limit 1 against two text entries (fetch) and one
two-entry batch ending in EOF (tail), plus the unbounded regime at
limit −1 for the tail loop. -/
theorem getEntries_tailLogs_limit_processed_entries_witness :
    ((GetEntries false ⟨[sampleText, sampleText], FetchEnd.done⟩ 1).outcome =
      Outcome.ok ∧
    (GetEntries false ⟨[sampleText, sampleText], FetchEnd.done⟩ 1).counter =
      Int.toNat 1 ∧
    (∃ p b s, [[sampleTailText, sampleTailText]] = p ++ b :: s ∧
      b.length ≠ 0 ∧ (totalTail p : Int) < 1 ∧
      (1 : Int) ≤ (totalTail p : Int) + b.length ∧
      totalTail p + b.length ≤ totalTail [[sampleTailText, sampleTailText]] ∧
      TailLogs false okSetup ⟨[[sampleTailText, sampleTailText]], TailEnd.eof⟩ 1 =
        { sink := tailLines false (p ++ [b]), diag := [],
          counter := totalTail p + b.length, outcome := Outcome.ok })) ∧
    TailLogs false okSetup ⟨[[sampleTailText, sampleTailText]], TailEnd.eof⟩ (-1) =
      { sink := tailLines false [[sampleTailText, sampleTailText]] ++
          tailEndSink TailEnd.eof,
        diag := [], counter := totalTail [[sampleTailText, sampleTailText]],
        outcome := tailEndOutcome TailEnd.eof } :=
  ⟨⟨(((getEntries_tailLogs_limit_processed_entries false 1
      ⟨[sampleText, sampleText], FetchEnd.done⟩
      [[sampleTailText, sampleTailText]] TailEnd.eof).1 (by decide)).2.1
      (by decide) (by decide)).1,
   (((getEntries_tailLogs_limit_processed_entries false 1
      ⟨[sampleText, sampleText], FetchEnd.done⟩
      [[sampleTailText, sampleTailText]] TailEnd.eof).1 (by decide)).2.1
      (by decide) (by decide)).2,
   ((getEntries_tailLogs_limit_processed_entries false 1
      ⟨[sampleText, sampleText], FetchEnd.done⟩
      [[sampleTailText, sampleTailText]] TailEnd.eof).1 (by decide)).2.2.1
      (by decide)⟩,
   ((getEntries_tailLogs_limit_processed_entries false (-1)
      ⟨[sampleText, sampleText], FetchEnd.done⟩
      [[sampleTailText, sampleTailText]] TailEnd.eof).2 (by decide)).2⟩

/-- C3 counterexample: the historical formatter emits two lines for an
entry carrying both an HTTP request and a string payload, and emits a
line even for an empty (hence whitespace-only) string payload — against
the claimed else-if dispatch producing at most one line and requiring a
non-empty payload. -/
theorem printLogEntry_two_lines :
    (printLogEntry false sampleBoth).map List.length = some 2 ∧
    (printLogEntry false sampleEmptyPayload).map List.length = some 1 := by
  decide

/-- C3 amended: the request branch and the text branch are independent
`if`s run in that order: an entry with both substructures emits two
lines (request line first); the historical formatter emits the text
line whenever the payload is a string — including the empty string —
while the live formatter requires a non-empty text payload; the text
line carries the payload with leading/trailing whitespace stripped; an
entry with neither shape emits nothing and reports no error. -/
theorem printers_branch_independence (isTerminal : Bool) (e : Entry)
    (te : TailEntry) :
    ((∀ req ∈ e.HTTPRequest, req.Request.isSome) →
      (printLogEntry isTerminal e).map List.length =
        some ((if e.HTTPRequest.isSome then 1 else 0) +
          (if e.Payload.isSome then 1 else 0))) ∧
    (e.HTTPRequest = none → e.Payload = none →
      printLogEntry isTerminal e = some []) ∧
    ((printTailLogEntry isTerminal te).length =
      (if te.HttpRequest.isSome then 1 else 0) +
        (if te.TextPayload = "" then 0 else 1)) ∧
    (te.HttpRequest = none → te.TextPayload ≠ "" →
      printTailLogEntry isTerminal te =
        [lineHead isTerminal (rfc3339 te.Timestamp) te.Severity te.ResourceType ++
          stringsTrimSpace te.TextPayload]) := by
  refine ⟨?_, ?_, ?_, ?_⟩
  · intro hreq
    rcases e with ⟨ts, sev, rt, oreq, pl⟩
    cases oreq with
    | none => cases pl <;> simp [printLogEntry, stringPayloadLines]
    | some req =>
      rcases req with ⟨ireq, st, lat⟩
      cases ireq with
      | none => simp at hreq
      | some r => cases pl <;> simp [printLogEntry, stringPayloadLines]
  · intro h1 h2
    rcases e with ⟨ts, sev, rt, oreq, pl⟩
    simp only [] at h1 h2
    subst h1
    subst h2
    simp [printLogEntry, stringPayloadLines]
  · rcases te with ⟨ts, sev, rt, oreq, tp⟩
    cases oreq <;> by_cases htp : tp = "" <;> simp [printTailLogEntry, htp]
  · intro h1 h2
    rcases te with ⟨ts, sev, rt, oreq, tp⟩
    simp only [] at h1 h2
    subst h1
    simp [printTailLogEntry, h2]

/-- C3 witness: the double-shaped historical entry and the text-shaped
live entry instantiate the dispatch characterization. -/
theorem printers_branch_independence_witness :
    (printLogEntry false sampleBoth).map List.length =
      some ((if sampleBoth.HTTPRequest.isSome then 1 else 0) +
        (if sampleBoth.Payload.isSome then 1 else 0)) ∧
    printTailLogEntry false sampleTailText =
      [lineHead false (rfc3339 sampleTailText.Timestamp) sampleTailText.Severity
        sampleTailText.ResourceType ++ stringsTrimSpace sampleTailText.TextPayload] :=
  ⟨(printers_branch_independence false sampleBoth sampleTailText).1 (by decide),
   (printers_branch_independence false sampleBoth sampleTailText).2.2.2
     (by decide) (by decide)⟩

/-- C10: both loop counters count processed entries, not emitted
lines: `GetEntries` increments once per iterated entry even when the
entry emits no line, `TailLogs` adds the full size of each received
batch, and a run with `limit = 1` can stop at the limit with an empty
sink. -/
theorem counters_count_processed_entries (isTerminal : Bool) (limit : Int)
    (entries : List Entry) (b : List TailEntry) (ending : TailEnd) :
    ((∀ e ∈ entries, (printLogEntry isTerminal e).isSome) →
      (0 < limit → (entries.length : Int) < limit) →
      (GetEntries isTerminal ⟨entries, FetchEnd.done⟩ limit).counter =
        entries.length) ∧
    (0 < limit → limit ≤ (b.length : Int) →
      (TailLogs isTerminal okSetup ⟨[b], ending⟩ limit).counter = b.length ∧
      (TailLogs isTerminal okSetup ⟨[b], ending⟩ limit).outcome = Outcome.ok) ∧
    ((GetEntries isTerminal ⟨[sampleNone, sampleText], FetchEnd.done⟩ 1).counter =
        1 ∧
      (GetEntries isTerminal ⟨[sampleNone, sampleText], FetchEnd.done⟩ 1).sink =
        [] ∧
      (GetEntries isTerminal ⟨[sampleNone, sampleText], FetchEnd.done⟩ 1).outcome =
        Outcome.ok) := by
  refine ⟨?_, ?_, ?_⟩
  · intro hsome hlt
    rw [show GetEntries isTerminal ⟨entries, FetchEnd.done⟩ limit =
        getEntriesLoop isTerminal limit FetchEnd.done entries 0 from rfl,
      getEntriesLoop_run_to_end isTerminal limit FetchEnd.done entries 0 hsome
        (by intro h1; simpa using hlt h1)]
    simp
  · intro hpos hreach
    have hne : ¬(b.length = 0) := by
      intro h0
      rw [h0] at hreach
      simp at hreach
      omega
    have h0 : TailLogs isTerminal okSetup ⟨[b], ending⟩ limit =
        tailLoop isTerminal limit ending [b] 0 := rfl
    rw [h0, tailLoop]
    rw [if_neg hne, if_pos ⟨hpos, by simpa using hreach⟩]
    simp
  · cases isTerminal <;> exact ⟨by decide, by decide, by decide⟩

/-- C10 witness: a tail batch of two entries under limit 1 is counted
in full. -/
theorem counters_count_processed_entries_witness :
    (TailLogs false okSetup ⟨[[sampleTailText, sampleTailText]], TailEnd.eof⟩
      1).counter = 2 :=
  ((counters_count_processed_entries false 1 []
      [sampleTailText, sampleTailText] TailEnd.eof).2.1
    (by decide) (by decide)).1

end Cloudtail
